import Mathlib

/-!
Verification of the codex-router credential/profile stores against their
specification.

This file shallowly embeds the three modules of the repository:

* `src/codex-auth.ts` — the active credential file store (`readCodexAuth`,
  `backupCodexAuth`, `writeCodexAuth`),
* `src/account-store.ts` — the named profile store (`validateAccountName`,
  `saveAccount`, `upsertAccount`, `loadAccount`, `listAccounts`,
  `removeAccount`),
* `src/token-refresh.ts` — JWT expiry checking and the refresh-token
  exchange (`decodeJwtPayload`, `isAccessTokenExpired`, `refreshTokens`,
  `refreshAuthIfExpired`).

Modelling conventions:

* JavaScript strings are modelled as `List Char` (`Str`), so that all string
  operations compute by kernel reduction.
* The filesystem is a pair of a directory list and a flat list of file
  entries, each entry holding its directory, file name, content and
  permission mode (`0o600 = 384`).  `node:fs` primitives (`readFile`,
  `writeFile`, `chmod`, `rename`, `copyFile`, `unlink`, `mkdir`, `readdir`)
  become pure state transformers.  Node's `writeFile` applies the `mode`
  option only when it creates the file, which is why the source follows it
  with an explicit `chmod`; the model reproduces that.
* JSON is modelled at the document level: `JSON.stringify` of the two record
  shapes used by the program produces the structured documents
  `JsonDoc.authDoc` / `JsonDoc.metaDoc`, `JSON.parse` of such a document
  returns it unchanged, any other parseable JSON text is `JsonDoc.otherDoc`,
  and unparseable text is `FileContent.badText`.  This captures exactly the
  distinctions the source code makes (parse failure vs. shape vs. field
  values); JavaScript's falsy test on a token field holds exactly for the
  empty string `[]` in this model.
* `Date.now()` / `new Date().toISOString()` and the random temporary-file
  suffix are passed in as explicit parameters (`now`, `nowIso`, `hex`).
* The single `fetch` of the refresh exchange is modelled by passing in the
  network outcome; functions that may call the network additionally return
  the list of refresh tokens sent, so "no call" / "exactly one call" are
  statable.
* Base64url-decoding plus `JSON.parse` of a JWT's middle segment is passed
  in as a decoder parameter `seg`; `none` models a decode/parse exception,
  and the decoded payload records whether a numeric `exp` claim is present.
* JavaScript error objects are modelled by the structured type `StoreErr`;
  `renderErr` produces the corresponding message text for claims about
  message contents.
-/

deriving instance DecidableEq for Except

namespace CodexRouter

/-- JavaScript strings, modelled as their character lists. -/
abbrev Str := List Char

/-! ## Data model (`src/types.ts`) -/

/-- The `tokens` sub-object of a `CodexAuthFile`. -/
structure Tokens where
  access_token : Str
  refresh_token : Str
  id_token : Str
  account_id : Option Str
deriving DecidableEq

/-- CodexAuthFile from `src/types.ts` (the spec's CredentialSet). -/
structure CodexAuthFile where
  tokens : Tokens
  last_refresh : Str
  auth_mode : Option Str
  OPENAI_API_KEY : Option Str
deriving DecidableEq

/-- AccountMetadata from `src/types.ts` (the spec's ProfileRecord). -/
structure AccountMetadata where
  name : Str
  savedAt : Str
  auth : CodexAuthFile
deriving DecidableEq

/-- AccountSummary from `src/types.ts` (the spec's ProfileSummary). -/
structure AccountSummary where
  name : Str
  savedAt : Str
  isActive : Bool
deriving DecidableEq

/-- TokenRefreshResult from `src/types.ts`: the parsed JSON body of a
successful token-endpoint response. -/
structure TokenRefreshResult where
  access_token : Str
  refresh_token : Option Str
  id_token : Str
  expires_in : Int
deriving DecidableEq

/-! ## JSON documents and file contents -/

/-- A parsed JSON document, at the granularity the source distinguishes:
the serialisation of a `CodexAuthFile`, the serialisation of an
`AccountMetadata`, or some other valid JSON document. -/
inductive JsonDoc
  | authDoc (a : CodexAuthFile)
  | metaDoc (m : AccountMetadata)
  | otherDoc (n : Nat)
deriving DecidableEq

/-- Whether a JSON document is the serialisation of an `AccountMetadata`. -/
def JsonDoc.isMeta : JsonDoc → Bool
  | .metaDoc _ => true
  | _ => false

/-- The content of a file: text that `JSON.parse` accepts (carrying the
parsed document) or text on which `JSON.parse` throws. -/
inductive FileContent
  | jsonText (d : JsonDoc)
  | badText (s : Str)
deriving DecidableEq

/-! ## Filesystem model -/

/-- One file: its directory, name within the directory, content and
permission bits. -/
structure FileEntry where
  dir : Str
  fname : Str
  content : FileContent
  mode : Nat
deriving DecidableEq

/-- Filesystem state: existing directories and files. -/
structure FS where
  dirs : List Str
  files : List FileEntry
deriving DecidableEq

/-- Whether an entry is the file `n` in directory `d`. -/
def entryMatches (d n : Str) (e : FileEntry) : Bool :=
  decide (e.dir = d) && decide (e.fname = n)

/-- Look up a file (model of a successful `readFile`/`stat`). -/
def getFile (fs : FS) (d n : Str) : Option FileEntry :=
  fs.files.find? (entryMatches d n)

/-- Content of a file, if present. -/
def getContent (fs : FS) (d n : Str) : Option FileContent :=
  (getFile fs d n).map (·.content)

/-- Permission mode of a file, if present. -/
def getMode (fs : FS) (d n : Str) : Option Nat :=
  (getFile fs d n).map (·.mode)

/-- Model of `fs.writeFile(path, data, { mode })`: replaces the content of an
existing file (keeping its mode — Node applies `mode` only at creation), or
creates the file with the given mode. -/
def writeFileFS (fs : FS) (d n : Str) (c : FileContent) (mode : Nat) : FS :=
  match getFile fs d n with
  | some _ =>
    { fs with files := fs.files.map fun e =>
        if entryMatches d n e then { e with content := c } else e }
  | none => { fs with files := { dir := d, fname := n, content := c, mode := mode } :: fs.files }

/-- Model of `fs.chmod(path, mode)` on an existing file. -/
def chmodFS (fs : FS) (d n : Str) (mode : Nat) : FS :=
  { fs with files := fs.files.map fun e =>
      if entryMatches d n e then { e with mode := mode } else e }

/-- Model of `fs.rename(src, dst)`: the destination becomes the source entry
(content and mode), the source disappears. -/
def renameFS (fs : FS) (sd sn dd dn : Str) : FS :=
  match getFile fs sd sn with
  | none => fs
  | some e =>
    { fs with files :=
        { dir := dd, fname := dn, content := e.content, mode := e.mode } ::
          fs.files.filter fun x => !(entryMatches sd sn x || entryMatches dd dn x) }

/-- Model of `fs.unlink(path)`. -/
def unlinkFS (fs : FS) (d n : Str) : FS :=
  { fs with files := fs.files.filter fun e => !(entryMatches d n e) }

/-- Model of `fs.mkdir(path, { recursive: true })`. -/
def mkdirFS (fs : FS) (d : Str) : FS :=
  if d ∈ fs.dirs then fs else { fs with dirs := d :: fs.dirs }

/-! ## Paths

`join(homedir(), ...)` from `node:path`/`node:os`; the home directory is an
explicit parameter. -/

/-- Model of `path.join(a, b)` for a single segment. -/
def joinPath (a b : Str) : Str := a ++ '/' :: b

/-- codexDir from `src/codex-auth.ts`: `join(homedir(), ".codex")`. -/
def codexDir (home : Str) : Str := joinPath home ".codex".data

/-- Basename of the active credential file `auth.json`. -/
def authFileName : Str := "auth.json".data

/-- Basename of the backup file `auth.json.bak`. -/
def authBackupName : Str := "auth.json.bak".data

/-- Basename of the staging file `auth.json.tmp-<hex>` for a given random
suffix. -/
def tmpFileName (hex : Str) : Str := "auth.json.tmp-".data ++ hex

/-- accountsDir from `src/account-store.ts`:
`join(homedir(), ".codex-router", "accounts")`. -/
def accountsDir (home : Str) : Str :=
  joinPath (joinPath home ".codex-router".data) "accounts".data

/-- Basename `" ++ name ++ ".json"` used by accountPath. -/
def accountFileName (name : Str) : Str := name ++ ".json".data

/-- The `.json` profile-file extension. -/
def jsonExt : Str := ".json".data

/-! ## Errors -/

/-- The error outcomes of the embedded operations, as structured values.
`renderErr` below gives the corresponding JavaScript `Error` message. -/
inductive StoreErr
  | missingCodexDir
  | missingTokenFields
  | jsonSyntaxErr (s : Str)
  | invalidAccountFile (path : Str) (reason : Str)
  | emptyName
  | invalidNameChars
  | alreadyExists (name : Str)
  | typeErr
  | refreshFailedHttp (status : Nat) (body : Str)
  | refreshResponseMissingFields
  | responseBodyNotJson
  | netFailure (msg : Str)
deriving DecidableEq

/-- Message text of each error, following the source's template strings.
For `jsonSyntaxErr` and `invalidAccountFile` the engine-specific
`SyntaxError` text is modelled by the offending text itself. -/
def renderErr : StoreErr → Str
  | .missingCodexDir => "Missing ~/.codex directory. Run codex login first.".data
  | .missingTokenFields => "auth.json is missing required token fields".data
  | .jsonSyntaxErr s => "Unexpected token in JSON: ".data ++ s
  | .invalidAccountFile p r => "Invalid account file \"".data ++ p ++ "\": ".data ++ r
  | .emptyName => "Account name cannot be empty".data
  | .invalidNameChars =>
      "Account name can only contain letters, numbers, hyphens, and underscores".data
  | .alreadyExists n => "Account \"".data ++ n ++ "\" already exists.".data
  | .typeErr => "TypeError: cannot read properties of undefined".data
  | .refreshFailedHttp status body =>
      "Token refresh failed (HTTP ".data ++ (Nat.repr status).data ++ "): ".data ++ body
  | .refreshResponseMissingFields => "Token refresh response missing required fields".data
  | .responseBodyNotJson => "response body is not valid JSON".data
  | .netFailure m => m

/-! ## Credential-file store (`src/codex-auth.ts`) -/

/-- readCodexAuth: read and parse `~/.codex/auth.json`; `null` when the file
does not exist; throws when the text is not JSON or when any of the three
token fields is missing/empty (JavaScript's falsy test
`!parsed.tokens?.access_token` holds for an absent `tokens` object — any
non-`authDoc` document — and for an empty token string). -/
def readCodexAuth (home : Str) (fs : FS) : Except StoreErr (Option CodexAuthFile) :=
  match getContent fs (codexDir home) authFileName with
  | none => .ok none
  | some (.badText s) => .error (.jsonSyntaxErr s)
  | some (.jsonText (.authDoc a)) =>
    if a.tokens.access_token = [] ∨ a.tokens.refresh_token = [] ∨ a.tokens.id_token = [] then
      .error .missingTokenFields
    else .ok (some a)
  | some (.jsonText _) => .error .missingTokenFields

/-- backupCodexAuth: `copyFile(auth.json, auth.json.bak)`, a no-op when
`auth.json` does not exist (`ENOENT` is swallowed). -/
def backupCodexAuth (home : Str) (fs : FS) : FS :=
  match getFile fs (codexDir home) authFileName with
  | none => fs
  | some e => writeFileFS fs (codexDir home) authBackupName e.content e.mode

/-- writeCodexAuth: require `~/.codex` to exist, back up, stage
`JSON.stringify(auth)` in `auth.json.tmp-<hex>` with mode `0o600`, and
rename it over `auth.json`. -/
def writeCodexAuth (home hex : Str) (auth : CodexAuthFile) (fs : FS) : Except StoreErr FS :=
  if codexDir home ∈ fs.dirs then
    .ok (renameFS
      (writeFileFS (backupCodexAuth home fs) (codexDir home) (tmpFileName hex)
        (.jsonText (.authDoc auth)) 384)
      (codexDir home) (tmpFileName hex) (codexDir home) authFileName)
  else .error .missingCodexDir

/-- writeCodexAuth with its intermediate states exposed, in execution
order: initial state, after `backupCodexAuth`, after staging the temporary
file, after the final rename.  The last state is exactly
`writeCodexAuth home hex auth fs`. -/
def writeCodexAuthTrace (home hex : Str) (auth : CodexAuthFile) (fs : FS) :
    Except StoreErr (List FS) :=
  if codexDir home ∈ fs.dirs then
    let s1 := backupCodexAuth home fs
    let s2 := writeFileFS s1 (codexDir home) (tmpFileName hex) (.jsonText (.authDoc auth)) 384
    let s3 := renameFS s2 (codexDir home) (tmpFileName hex) (codexDir home) authFileName
    .ok [fs, s1, s2, s3]
  else .error .missingCodexDir

/-! ## Profile store (`src/account-store.ts`) -/

/-- One character of `NAME_PATTERN = /^[a-zA-Z0-9_-]+$/`. -/
def isNameChar (c : Char) : Bool :=
  decide ('a' ≤ c ∧ c ≤ 'z') || decide ('A' ≤ c ∧ c ≤ 'Z') ||
    decide ('0' ≤ c ∧ c ≤ '9') || decide (c = '_') || decide (c = '-')

/-- validateAccountName: empty names and names with a character outside
`[a-zA-Z0-9_-]` are rejected. -/
def validateAccountName (name : Str) : Except StoreErr Unit :=
  if name = [] then .error .emptyName
  else if name.all isNameChar then .ok () else .error .invalidNameChars

/-- writeAccountFile: `writeFile` with mode `0o600` followed by `chmod 0o600`
(the explicit `chmod` re-tightens a pre-existing file's mode, since
`writeFile`'s `mode` option only applies at creation). -/
def writeAccountFile (fs : FS) (d n : Str) (m : AccountMetadata) : FS :=
  chmodFS (writeFileFS fs d n (.jsonText (.metaDoc m)) 384) d n 384

/-- saveAccount: validate, ensure the accounts directory, fail when the
profile file already exists (probed with `readFile`), otherwise write a
fresh record `{ name, savedAt: now, auth }`. -/
def saveAccount (home now name : Str) (auth : CodexAuthFile) (fs : FS) : Except StoreErr FS :=
  match validateAccountName name with
  | .error e => .error e
  | .ok _ =>
    let fs1 := mkdirFS fs (accountsDir home)
    match getFile fs1 (accountsDir home) (accountFileName name) with
    | some _ => .error (.alreadyExists name)
    | none =>
      .ok (writeAccountFile fs1 (accountsDir home) (accountFileName name)
        { name := name, savedAt := now, auth := auth })

/-- upsertAccount: validate, ensure the accounts directory, write (creating
or replacing) `{ name, savedAt: now, auth }`. -/
def upsertAccount (home now name : Str) (auth : CodexAuthFile) (fs : FS) : Except StoreErr FS :=
  match validateAccountName name with
  | .error e => .error e
  | .ok _ =>
    let fs1 := mkdirFS fs (accountsDir home)
    .ok (writeAccountFile fs1 (accountsDir home) (accountFileName name)
      { name := name, savedAt := now, auth := auth })

/-- loadAccount: validate, read the profile file; `null` when missing;
`parseAccountMetadata` throws (naming the path) only when `JSON.parse`
throws — the TypeScript cast `as AccountMetadata` performs no shape check,
so any parseable document is returned as-is. -/
def loadAccount (home name : Str) (fs : FS) : Except StoreErr (Option JsonDoc) :=
  match validateAccountName name with
  | .error e => .error e
  | .ok _ =>
    match getContent fs (accountsDir home) (accountFileName name) with
    | none => .ok none
    | some (.jsonText d) => .ok (some d)
    | some (.badText s) =>
      .error (.invalidAccountFile (joinPath (accountsDir home) (accountFileName name)) s)

/-- Lexicographic (code-point) comparison of strings: the formal reading of
the specification's phrase "sorted lexicographically".  This is NOT the
comparator the program uses — `localeCompare` is locale collation, which
deviates from code-point order on mixed-case names (see
`defaultLocaleLe`); `listAccounts` therefore takes its comparator as a
parameter. -/
def lexLe (a b : Str) : Bool :=
  match a, b with
  | [], _ => true
  | _ :: _, [] => false
  | x :: xs, y :: ys => if x = y then lexLe xs ys else decide (x < y)

/-- ASCII lower-casing, `A`–`Z` mapped to `a`–`z`. -/
def toLowerChar (c : Char) : Char :=
  if 'A' ≤ c ∧ c ≤ 'Z' then Char.ofNat (c.toNat + 32) else c

/-- ASCII case swap: upper to lower and lower to upper. -/
def swapCaseChar (c : Char) : Char :=
  if 'A' ≤ c ∧ c ≤ 'Z' then Char.ofNat (c.toNat + 32)
  else if 'a' ≤ c ∧ c ≤ 'z' then Char.ofNat (c.toNat - 32)
  else c

/-- The `a.localeCompare(b) ≤ 0` predicate of the default locale (ICU root
collation), modelled on ASCII names: letters compare case-insensitively at
primary strength (so `"a"` sorts before `"B"`), and for equal base
letters lowercase sorts before uppercase at tertiary strength (root
collation's lowercase-first default).  Digits keep their code-point order
before letters.  (Hyphen and underscore are compared by code point here;
the full collation's variable-element treatment of punctuation is outside
what any theorem below uses.) -/
def defaultLocaleLe (a b : Str) : Bool :=
  if a.map toLowerChar = b.map toLowerChar then
    lexLe (a.map swapCaseChar) (b.map swapCaseChar)
  else lexLe (a.map toLowerChar) (b.map toLowerChar)

/-- The summary built by the loop body of listAccounts:
`isActive := currentAccessToken !== null && meta.auth.tokens.access_token
=== currentAccessToken`. -/
def summarize (cur : Option Str) (m : AccountMetadata) : AccountSummary :=
  { name := m.name, savedAt := m.savedAt,
    isActive := match cur with
      | none => false
      | some t => decide (m.auth.tokens.access_token = t) }

/-- The loop of listAccounts over the directory entries: skip names without
the `.json` suffix, throw on unparseable files (naming the path), build a
summary for each profile record.  A parseable non-record document makes the
property chain `meta.auth.tokens.access_token` fail in JavaScript; that
failure is modelled as `typeErr`. -/
def collectSummaries (home : Str) (cur : Option Str) :
    List FileEntry → Except StoreErr (List AccountSummary)
  | [] => .ok []
  | e :: rest =>
    if jsonExt.isSuffixOf e.fname then
      match e.content with
      | .badText s => .error (.invalidAccountFile (joinPath (accountsDir home) e.fname) s)
      | .jsonText (.metaDoc m) =>
        match collectSummaries home cur rest with
        | .error err => .error err
        | .ok l => .ok (summarize cur m :: l)
      | .jsonText _ => .error .typeErr
    else collectSummaries home cur rest

/-- listAccounts: ensure the directory, `readdir` it (the entries of the
accounts directory, in storage order), process each `.json` file, and sort
the summaries with `(a, b) => a.name.localeCompare(b.name)`.  The
collation is locale-dependent environment behaviour, so it is passed in as
the predicate `cmp a b ↔ a.localeCompare(b) ≤ 0` (any consistent
comparator; `defaultLocaleLe` is the default locale's). -/
def listAccounts (cmp : Str → Str → Bool) (home : Str) (cur : Option Str) (fs : FS) :
    Except StoreErr (List AccountSummary) :=
  match collectSummaries home cur (fs.files.filter fun e => decide (e.dir = accountsDir home)) with
  | .error e => .error e
  | .ok l => .ok (List.insertionSort (fun a b => cmp a.name b.name = true) l)

/-- removeAccount: validate, `unlink` the profile file, report whether a
file was removed (`ENOENT` becomes `false`). -/
def removeAccount (home name : Str) (fs : FS) : Except StoreErr (Bool × FS) :=
  match validateAccountName name with
  | .error e => .error e
  | .ok _ =>
    match getFile fs (accountsDir home) (accountFileName name) with
    | none => .ok (false, fs)
    | some _ => .ok (true, unlinkFS fs (accountsDir home) (accountFileName name))

/-! ## Token refresher (`src/token-refresh.ts`) -/

/-- EXPIRY_GRACE_SECONDS. -/
def EXPIRY_GRACE_SECONDS : Int := 60

/-- The result of base64url-decoding a JWT segment and `JSON.parse`-ing it:
`exp` is `some e` exactly when the payload object has a numeric `exp` claim
with value `e`. -/
structure JwtPayload where
  exp : Option Int
deriving DecidableEq

/-- The environment's base64url-decode-then-`JSON.parse` on a segment;
`none` models a thrown exception (caught by the source and turned into
`null`). -/
abbrev SegDecoder := Str → Option JwtPayload

/-- Model of `String.split(".")` for JavaScript strings. -/
def splitOnDot : Str → List Str
  | [] => [[]]
  | c :: rest =>
    match splitOnDot rest, decide (c = '.') with
    | r, true => [] :: r
    | [], false => [[c]]
    | h :: t, false => (c :: h) :: t

/-- decodeJwtPayload: `null` unless the token has exactly three dot-separated
segments whose middle segment decodes and parses. -/
def decodeJwtPayload (seg : SegDecoder) (token : Str) : Option JwtPayload :=
  match splitOnDot token with
  | [_, mid, _] => seg mid
  | _ => none

/-- isAccessTokenExpired: a token that cannot be decoded or lacks a numeric
`exp` is treated as expired; otherwise expired means
`exp - now ≤ EXPIRY_GRACE_SECONDS`. -/
def isAccessTokenExpired (seg : SegDecoder) (now : Int) (auth : CodexAuthFile) : Bool :=
  match decodeJwtPayload seg auth.tokens.access_token with
  | none => true
  | some payload =>
    match payload.exp with
    | none => true
    | some e => decide (e - now ≤ EXPIRY_GRACE_SECONDS)

/-- An HTTP response as the source consumes it: status, `text()` body, and
the `json()` body when the text parses as a refresh result. -/
structure HttpResponse where
  status : Nat
  bodyText : Str
  bodyJson : Option TokenRefreshResult
deriving DecidableEq

/-- `Response.ok`: status in the range 200–299. -/
def respOk (r : HttpResponse) : Bool := decide (200 ≤ r.status ∧ r.status ≤ 299)

/-- What the single `fetch` call yields: a network-level failure (rejected
promise, carrying its message) or a response. -/
abbrev FetchOutcome := Except Str HttpResponse

/-- refreshTokens: one POST to the token endpoint.  Alongside the result,
the list of refresh tokens sent over the network is returned (always
exactly one — there is no retry).  Non-2xx responses fail with the status
and body text; 2xx responses whose JSON lacks an access or id token
(JavaScript-falsy, i.e. absent or empty) fail as invalid; otherwise the
parsed response is returned.  A network failure propagates unchanged. -/
def refreshTokens (net : FetchOutcome) (refreshToken : Str) :
    Except StoreErr TokenRefreshResult × List Str :=
  match net with
  | .error e => (.error (.netFailure e), [refreshToken])
  | .ok r =>
    if respOk r then
      match r.bodyJson with
      | none => (.error .responseBodyNotJson, [refreshToken])
      | some data =>
        if data.access_token = [] ∨ data.id_token = [] then
          (.error .refreshResponseMissingFields, [refreshToken])
        else (.ok data, [refreshToken])
    else (.error (.refreshFailedHttp r.status r.bodyText), [refreshToken])

/-- refreshAuthIfExpired: return the input unchanged (and make no network
call) when the token is not expired; otherwise exchange the current refresh
token and overlay the new access/refresh/id tokens and a fresh
`last_refresh` over the input (`result.refresh_token ?? auth.tokens.refresh_token`
keeps the prior refresh token when the response omits one). -/
def refreshAuthIfExpired (seg : SegDecoder) (now : Int) (nowIso : Str) (net : FetchOutcome)
    (auth : CodexAuthFile) : Except StoreErr (CodexAuthFile × Bool) × List Str :=
  if isAccessTokenExpired seg now auth then
    match refreshTokens net auth.tokens.refresh_token with
    | (.error e, calls) => (.error e, calls)
    | (.ok result, calls) =>
      (.ok ({ auth with
          tokens := { auth.tokens with
            access_token := result.access_token,
            refresh_token := result.refresh_token.getD auth.tokens.refresh_token,
            id_token := result.id_token },
          last_refresh := nowIso }, true), calls)
  else (.ok (auth, false), [])

/-- The summary an entry of the accounts directory contributes to the
listing: `none` for names without the `.json` extension, the built summary
for a profile record.  (Derived description of the loop body, used to state
what `listAccounts` returns.) -/
def entrySummary (cur : Option Str) (e : FileEntry) : Option AccountSummary :=
  if jsonExt.isSuffixOf e.fname then
    match e.content with
    | .jsonText (.metaDoc m) => some (summarize cur m)
    | _ => none
  else none

/-! ## Generic lemmas about the filesystem primitives -/

theorem find?_map_ite {α : Type} (p q : α → Bool) (f : α → α) (hq : ∀ a, q (f a) = q a) :
    ∀ l : List α, ((l.map fun a => if p a then f a else a).find? q)
      = (l.find? q).map fun a => if p a then f a else a
  | [] => rfl
  | a :: l => by
    have hqa : q (if p a then f a else a) = q a := by
      by_cases hp : p a <;> simp [hp, hq]
    cases h : q a with
    | false =>
      simp only [List.map_cons, List.find?_cons, hqa, h]
      exact find?_map_ite p q f hq l
    | true => simp [List.find?_cons, hqa, h]

theorem find?_filter_not {α : Type} (p q : α → Bool) (hdisj : ∀ a, q a = true → p a = false) :
    ∀ l : List α, ((l.filter fun a => !(p a)).find? q) = l.find? q
  | [] => rfl
  | a :: l => by
    cases hp : p a with
    | true =>
      have hqa : q a = false := by
        cases hqa : q a with
        | false => rfl
        | true => rw [hdisj a hqa] at hp; exact absurd hp (by simp)
      simp only [List.filter_cons, hp, Bool.not_true, if_false, List.find?_cons, hqa]
      exact find?_filter_not p q hdisj l
    | false =>
      cases hqa : q a with
      | true => simp [List.filter_cons, hp, List.find?_cons, hqa]
      | false =>
        simp only [List.filter_cons, hp, Bool.not_false, if_true, List.find?_cons, hqa]
        exact find?_filter_not p q hdisj l

theorem entryMatches_content (d n : Str) (e : FileEntry) (c : FileContent) :
    entryMatches d n { e with content := c } = entryMatches d n e := rfl

theorem entryMatches_mode (d n : Str) (e : FileEntry) (m : Nat) :
    entryMatches d n { e with mode := m } = entryMatches d n e := rfl

theorem entryMatches_mk (d n : Str) (c : FileContent) (m : Nat) :
    entryMatches d n ⟨d, n, c, m⟩ = true := by simp [entryMatches]

theorem entryMatches_unique {d n d' n' : Str} (h : ¬(d' = d ∧ n' = n)) (e : FileEntry) :
    entryMatches d' n' e = true → entryMatches d n e = false := by
  simp only [entryMatches, Bool.and_eq_true, decide_eq_true_eq]
  rintro ⟨rfl, rfl⟩
  rcases Decidable.not_and_iff_or_not.mp h with h' | h' <;> simp [h']

theorem entryMatches_mk_false {d n d' n' : Str} (h : ¬(d' = d ∧ n' = n))
    (c : FileContent) (m : Nat) : entryMatches d' n' ⟨d, n, c, m⟩ = false := by
  have h' : ¬(d = d' ∧ n = n') := fun hx => h ⟨hx.1.symm, hx.2.symm⟩
  simp only [entryMatches]
  rcases Decidable.not_and_iff_or_not.mp h' with h'' | h'' <;> simp [h'']

theorem getFile_writeFileFS_self (fs : FS) (d n : Str) (c : FileContent) (m : Nat) :
    ∃ e, getFile (writeFileFS fs d n c m) d n = some e ∧ e.content = c := by
  unfold writeFileFS
  cases hg : getFile fs d n with
  | none =>
    refine ⟨⟨d, n, c, m⟩, ?_, rfl⟩
    simp [getFile, List.find?_cons, entryMatches_mk]
  | some e =>
    have h := find?_map_ite (entryMatches d n) (entryMatches d n)
      (fun e => { e with content := c }) (fun e => entryMatches_content d n e c) fs.files
    have hpe : entryMatches d n e = true := List.find?_some hg
    refine ⟨{ e with content := c }, ?_, rfl⟩
    simp only [getFile] at hg ⊢
    rw [h, hg]
    simp [hpe]

theorem getContent_writeFileFS_self (fs : FS) (d n : Str) (c : FileContent) (m : Nat) :
    getContent (writeFileFS fs d n c m) d n = some c := by
  obtain ⟨e, he, hc⟩ := getFile_writeFileFS_self fs d n c m
  simp [getContent, he, hc]

theorem getFile_writeFileFS_ne (fs : FS) {d n d' n' : Str} (c : FileContent) (m : Nat)
    (h : ¬(d' = d ∧ n' = n)) :
    getFile (writeFileFS fs d n c m) d' n' = getFile fs d' n' := by
  unfold writeFileFS
  cases hg : getFile fs d n with
  | none =>
    simp [getFile, List.find?_cons, entryMatches_mk_false h c m]
  | some e =>
    have h' := find?_map_ite (entryMatches d n) (entryMatches d' n')
      (fun e => { e with content := c }) (fun e => entryMatches_content d' n' e c) fs.files
    simp only [getFile] at h' ⊢
    rw [h']
    cases hg' : fs.files.find? (entryMatches d' n') with
    | none => rfl
    | some e' =>
      have hm : entryMatches d n e' = false :=
        entryMatches_unique h e' (List.find?_some hg')
      simp [hm]

theorem getContent_writeFileFS_ne (fs : FS) {d n d' n' : Str} (c : FileContent) (m : Nat)
    (h : ¬(d' = d ∧ n' = n)) :
    getContent (writeFileFS fs d n c m) d' n' = getContent fs d' n' := by
  simp [getContent, getFile_writeFileFS_ne fs c m h]

theorem getFile_chmodFS (fs : FS) (d n : Str) (m : Nat) (d' n' : Str) :
    getFile (chmodFS fs d n m) d' n'
      = (getFile fs d' n').map fun e => if entryMatches d n e then { e with mode := m } else e := by
  unfold chmodFS getFile
  exact find?_map_ite (entryMatches d n) (entryMatches d' n')
    (fun e => { e with mode := m }) (fun e => entryMatches_mode d' n' e m) fs.files

theorem getContent_chmodFS (fs : FS) (d n : Str) (m : Nat) (d' n' : Str) :
    getContent (chmodFS fs d n m) d' n' = getContent fs d' n' := by
  simp only [getContent, getFile_chmodFS]
  cases getFile fs d' n' with
  | none => rfl
  | some e => by_cases h : entryMatches d n e <;> simp [h]

theorem getMode_chmodFS_self (fs : FS) (d n : Str) (m : Nat) {e : FileEntry}
    (h : getFile fs d n = some e) : getMode (chmodFS fs d n m) d n = some m := by
  have hm : entryMatches d n e = true := List.find?_some h
  simp [getMode, getFile_chmodFS, h, hm]

theorem getContent_renameFS_dest (fs : FS) {sd sn : Str} (dd dn : Str) {e : FileEntry}
    (h : getFile fs sd sn = some e) :
    getContent (renameFS fs sd sn dd dn) dd dn = some e.content := by
  unfold renameFS
  rw [h]
  simp [getContent, getFile, List.find?_cons, entryMatches_mk]

theorem getFile_renameFS_src (fs : FS) {sd sn : Str} (dd dn : Str) {e : FileEntry}
    (h : getFile fs sd sn = some e) (hne : ¬(sd = dd ∧ sn = dn)) :
    getFile (renameFS fs sd sn dd dn) sd sn = none := by
  unfold renameFS
  rw [h]
  have hne' : ¬(sd = dd ∧ sn = dn) := hne
  simp only [getFile, List.find?_cons, entryMatches_mk_false hne' e.content e.mode]
  rw [List.find?_eq_none]
  intro x hx
  have := List.of_mem_filter hx
  cases hm : entryMatches sd sn x with
  | false => simp
  | true => simp [hm] at this

theorem getFile_renameFS_other (fs : FS) {sd sn dd dn d' n' : Str}
    {e : FileEntry} (h : getFile fs sd sn = some e)
    (h1 : ¬(d' = sd ∧ n' = sn)) (h2 : ¬(d' = dd ∧ n' = dn)) :
    getFile (renameFS fs sd sn dd dn) d' n' = getFile fs d' n' := by
  unfold renameFS
  rw [h]
  simp only [getFile, List.find?_cons, entryMatches_mk_false h2 e.content e.mode]
  exact find?_filter_not _ (entryMatches d' n')
    (fun a ha => by
      rw [entryMatches_unique h1 a ha, entryMatches_unique h2 a ha]
      rfl)
    fs.files

theorem getContent_renameFS_other (fs : FS) {sd sn dd dn d' n' : Str}
    {e : FileEntry} (h : getFile fs sd sn = some e)
    (h1 : ¬(d' = sd ∧ n' = sn)) (h2 : ¬(d' = dd ∧ n' = dn)) :
    getContent (renameFS fs sd sn dd dn) d' n' = getContent fs d' n' := by
  simp [getContent, getFile_renameFS_other fs h h1 h2]

theorem getFile_mkdirFS (fs : FS) (d d' n' : Str) :
    getFile (mkdirFS fs d) d' n' = getFile fs d' n' := by
  unfold mkdirFS
  split <;> rfl

theorem files_mkdirFS (fs : FS) (d : Str) : (mkdirFS fs d).files = fs.files := by
  unfold mkdirFS
  split <;> rfl

/-! ## File-name disequalities -/

theorem authFileName_ne_backup : ¬(authFileName = authBackupName) := by decide

theorem tmpFileName_ne_authFileName (hex : Str) : ¬(tmpFileName hex = authFileName) := by
  intro h
  have hl := congrArg List.length h
  have h14 : ("auth.json.tmp-".data).length = 14 := by decide
  have h9 : authFileName.length = 9 := by decide
  rw [tmpFileName, List.length_append, h14, h9] at hl
  omega

theorem tmpFileName_ne_backup (hex : Str) : ¬(tmpFileName hex = authBackupName) := by
  intro h
  have hl := congrArg List.length h
  have h14 : ("auth.json.tmp-".data).length = 14 := by decide
  have h13 : authBackupName.length = 13 := by decide
  rw [tmpFileName, List.length_append, h14, h13] at hl
  omega

theorem jsonExt_isSuffixOf_accountFileName (name : Str) :
    jsonExt.isSuffixOf (accountFileName name) = true :=
  List.isSuffixOf_iff_suffix.mpr (List.suffix_append name jsonExt)

/-! ## Properties of the sort order and of the listing loop -/

theorem lexLe_trans : ∀ a b c : Str, lexLe a b = true → lexLe b c = true → lexLe a c = true
  | [], _, _, _, _ => rfl
  | _ :: _, [], _, hab, _ => by simp [lexLe] at hab
  | _ :: _, _ :: _, [], _, hbc => by simp [lexLe] at hbc
  | x :: xs, y :: ys, z :: zs, hab, hbc => by
    simp only [lexLe] at hab hbc ⊢
    by_cases hxy : x = y
    · subst hxy
      by_cases hxz : x = z
      · subst hxz
        simp only [if_pos rfl] at hab hbc ⊢
        exact lexLe_trans xs ys zs hab hbc
      · simp only [if_neg hxz] at hbc ⊢
        exact hbc
    · simp only [if_neg hxy] at hab
      by_cases hyz : y = z
      · subst hyz
        simp only [if_neg hxy]
        exact hab
      · simp only [if_neg hyz] at hbc
        have hxz : x < z := lt_trans (of_decide_eq_true hab) (of_decide_eq_true hbc)
        simp [ne_of_lt hxz, hxz]

theorem lexLe_total : ∀ a b : Str, lexLe a b = true ∨ lexLe b a = true
  | [], _ => Or.inl rfl
  | _ :: _, [] => Or.inr rfl
  | x :: xs, y :: ys => by
    by_cases hxy : x = y
    · subst hxy
      rcases lexLe_total xs ys with h | h
      · exact Or.inl (by simp [lexLe, h])
      · exact Or.inr (by simp [lexLe, h])
    · rcases lt_or_gt_of_ne hxy with h | h
      · exact Or.inl (by simp [lexLe, hxy, h])
      · exact Or.inr (by simp [lexLe, Ne.symm hxy, h])

theorem lexLe_antisymm : ∀ a b : Str, lexLe a b = true → lexLe b a = true → a = b
  | [], [], _, _ => rfl
  | [], _ :: _, _, hba => by simp [lexLe] at hba
  | _ :: _, [], hab, _ => by simp [lexLe] at hab
  | x :: xs, y :: ys, hab, hba => by
    simp only [lexLe] at hab hba
    by_cases hxy : x = y
    · subst hxy
      simp only [if_pos rfl] at hab hba
      rw [lexLe_antisymm xs ys hab hba]
    · rw [if_neg hxy] at hab
      rw [if_neg (Ne.symm hxy)] at hba
      exact absurd (of_decide_eq_true hba) (lt_asymm (of_decide_eq_true hab))

theorem defaultLocaleLe_trans (a b c : Str) (hab : defaultLocaleLe a b = true)
    (hbc : defaultLocaleLe b c = true) : defaultLocaleLe a c = true := by
  unfold defaultLocaleLe at hab hbc ⊢
  by_cases h1 : a.map toLowerChar = b.map toLowerChar
  · rw [if_pos h1] at hab
    by_cases h2 : b.map toLowerChar = c.map toLowerChar
    · rw [if_pos h2] at hbc
      rw [if_pos (h1.trans h2)]
      exact lexLe_trans _ _ _ hab hbc
    · rw [if_neg h2] at hbc
      rw [if_neg (h1 ▸ h2), h1]
      exact hbc
  · rw [if_neg h1] at hab
    by_cases h2 : b.map toLowerChar = c.map toLowerChar
    · rw [if_pos h2] at hbc
      rw [if_neg (h2 ▸ h1), ← h2]
      exact hab
    · rw [if_neg h2] at hbc
      have h13 : ¬(a.map toLowerChar = c.map toLowerChar) := by
        intro h
        exact h1 (lexLe_antisymm _ _ hab (h ▸ hbc))
      rw [if_neg h13]
      exact lexLe_trans _ _ _ hab hbc

theorem defaultLocaleLe_total (a b : Str) :
    defaultLocaleLe a b = true ∨ defaultLocaleLe b a = true := by
  unfold defaultLocaleLe
  by_cases h : a.map toLowerChar = b.map toLowerChar
  · rw [if_pos h, if_pos h.symm]
    exact lexLe_total _ _
  · rw [if_neg h, if_neg (fun hx => h hx.symm)]
    exact lexLe_total _ _

theorem collectSummaries_ok (home : Str) (cur : Option Str) :
    ∀ l : List FileEntry,
      (∀ e ∈ l, jsonExt.isSuffixOf e.fname = true → ∃ m, e.content = .jsonText (.metaDoc m)) →
      collectSummaries home cur l = .ok (l.filterMap (entrySummary cur))
  | [], _ => rfl
  | e :: rest, h => by
    have hrest := collectSummaries_ok home cur rest fun x hx => h x (List.mem_cons_of_mem e hx)
    by_cases hsuf : jsonExt.isSuffixOf e.fname
    · obtain ⟨m, hm⟩ := h e (List.mem_cons_self e rest) hsuf
      simp only [collectSummaries, hsuf, if_true, hm, hrest, List.filterMap_cons, entrySummary]
    · simp [collectSummaries, hsuf, hrest, List.filterMap_cons, entrySummary]

theorem listAccounts_ok (cmp : Str → Str → Bool) (home : Str) (cur : Option Str) (fs : FS)
    (h : ∀ e ∈ fs.files, e.dir = accountsDir home →
      jsonExt.isSuffixOf e.fname = true → ∃ m, e.content = .jsonText (.metaDoc m)) :
    listAccounts cmp home cur fs = .ok
      (List.insertionSort (fun a b => cmp a.name b.name = true)
        ((fs.files.filter fun e => decide (e.dir = accountsDir home)).filterMap
          (entrySummary cur))) := by
  unfold listAccounts
  rw [collectSummaries_ok home cur _ fun e he hsuf =>
    h e (List.mem_filter.mp he).1 (of_decide_eq_true (List.mem_filter.mp he).2) hsuf]

theorem summarize_isActive_none (m : AccountMetadata) : (summarize none m).isActive = false := rfl

theorem summarize_isActive_iff (cur : Option Str) (m : AccountMetadata) :
    (summarize cur m).isActive = true ↔ ∃ t, cur = some t ∧ m.auth.tokens.access_token = t := by
  cases cur with
  | none => simp [summarize]
  | some t => simp [summarize]

theorem refreshTokens_calls (net : FetchOutcome) (tok : Str) :
    (refreshTokens net tok).2 = [tok] := by
  cases net with
  | error e => rfl
  | ok r =>
    simp only [refreshTokens]
    by_cases hok : respOk r
    · simp only [if_pos hok]
      cases hj : r.bodyJson with
      | none => rfl
      | some data =>
        by_cases hmiss : data.access_token = [] ∨ data.id_token = [] <;> simp [hmiss]
    · simp [if_neg hok]

/-! ## Claim theorems -/

theorem decodeJwtPayload_eq_none_of_len (seg : SegDecoder) (t : Str)
    (h : (splitOnDot t).length ≠ 3) : decodeJwtPayload seg t = none := by
  unfold decodeJwtPayload
  rcases hsp : splitOnDot t with _ | ⟨a, _ | ⟨b, _ | ⟨c, _ | ⟨d, tl⟩⟩⟩⟩ <;>
    first
    | rfl
    | (rw [hsp] at h; simp at h)

/-- C9: `validateAccountName` fails with an invalid-name error (empty-name
or invalid-character) exactly when the name is empty or has a character
outside letters, digits, hyphen and underscore; it succeeds otherwise; and
it decides the seven examples cited by the specification accordingly. -/
theorem validateAccountName_spec (name : Str) :
    ((∃ e, validateAccountName name = .error e ∧
        (e = StoreErr.emptyName ∨ e = StoreErr.invalidNameChars)) ↔
      (name = [] ∨ ∃ c ∈ name, isNameChar c = false)) ∧
    (validateAccountName name = .ok () ↔ (name ≠ [] ∧ ∀ c ∈ name, isNameChar c = true)) ∧
    validateAccountName [] = .error .emptyName ∧
    validateAccountName "my account".data = .error .invalidNameChars ∧
    validateAccountName "../hack".data = .error .invalidNameChars ∧
    validateAccountName "foo/bar".data = .error .invalidNameChars ∧
    validateAccountName "personal".data = .ok () ∧
    validateAccountName "work-2".data = .ok () ∧
    validateAccountName "my_account".data = .ok () := by
  refine ⟨?_, ?_, by decide, by decide, by decide, by decide, by decide, by decide, by decide⟩
  · unfold validateAccountName
    by_cases h0 : name = []
    · simp [h0]
    · by_cases hall : name.all isNameChar
      · have hcls := List.all_eq_true.mp hall
        simp only [if_neg h0, if_pos hall]
        constructor
        · rintro ⟨e, he, _⟩
          cases he
        · rintro (h | ⟨c, hc, hbad⟩)
          · exact absurd h h0
          · rw [hcls c hc] at hbad
            cases hbad
      · simp only [if_neg h0, if_neg hall]
        constructor
        · intro _
          right
          by_contra hno
          refine hall (List.all_eq_true.mpr fun c hc => ?_)
          cases hx : isNameChar c with
          | true => rfl
          | false => exact absurd ⟨c, hc, hx⟩ hno
        · intro _
          exact ⟨.invalidNameChars, rfl, Or.inr rfl⟩
  · unfold validateAccountName
    by_cases h0 : name = []
    · simp [h0]
    · by_cases hall : name.all isNameChar
      · simp only [if_neg h0, if_pos hall]
        exact ⟨fun _ => ⟨h0, List.all_eq_true.mp hall⟩, fun _ => trivial⟩
      · simp only [if_neg h0, if_neg hall]
        constructor
        · rintro ⟨⟩
        · rintro ⟨_, hc⟩
          exact absurd (List.all_eq_true.mpr hc) hall

/-- C9 witness: the theorem applied at the concrete name `"work-2"`. -/
theorem validateAccountName_spec_witness :
    validateAccountName "work-2".data = .ok () ↔
      ("work-2".data ≠ [] ∧ ∀ c ∈ "work-2".data, isNameChar c = true) :=
  (validateAccountName_spec "work-2".data).2.1

/-- C5: `isAccessTokenExpired` is true when the access token does not have
exactly three dot-separated segments, when the middle segment does not
decode/parse, or when the payload lacks a numeric `exp`; with a numeric
`exp` it is true exactly when `exp - now ≤ 60`, hence false when `exp` is
3600 seconds in the future. -/
theorem isAccessTokenExpired_spec (seg : SegDecoder) (now : Int) (auth : CodexAuthFile) :
    ((splitOnDot auth.tokens.access_token).length ≠ 3 →
      isAccessTokenExpired seg now auth = true) ∧
    (∀ a mid b, splitOnDot auth.tokens.access_token = [a, mid, b] →
      (seg mid = none → isAccessTokenExpired seg now auth = true) ∧
      (seg mid = some ⟨none⟩ → isAccessTokenExpired seg now auth = true) ∧
      (∀ e, seg mid = some ⟨some e⟩ →
        (isAccessTokenExpired seg now auth = true ↔ e - now ≤ EXPIRY_GRACE_SECONDS)) ∧
      (∀ e, seg mid = some ⟨some e⟩ → e = now + 3600 →
        isAccessTokenExpired seg now auth = false)) := by
  constructor
  · intro hlen
    unfold isAccessTokenExpired
    rw [decodeJwtPayload_eq_none_of_len seg _ hlen]
  · intro a mid b hsp
    have hdec : decodeJwtPayload seg auth.tokens.access_token = seg mid := by
      unfold decodeJwtPayload
      rw [hsp]
    refine ⟨?_, ?_, ?_, ?_⟩
    · intro hseg
      unfold isAccessTokenExpired
      rw [hdec, hseg]
    · intro hseg
      unfold isAccessTokenExpired
      rw [hdec, hseg]
    · intro e hseg
      unfold isAccessTokenExpired
      rw [hdec, hseg]
      simp
    · intro e hseg he
      unfold isAccessTokenExpired
      rw [hdec, hseg, he]
      simp only [decide_eq_false_iff_not]
      unfold EXPIRY_GRACE_SECONDS
      omega

/-- C5 witness: the theorem applied to the token `"h.p.s"` whose payload
carries `exp = now + 3600` with `now = 1000`. -/
theorem isAccessTokenExpired_spec_witness :
    isAccessTokenExpired (fun s => if s = "p".data then some ⟨some 4600⟩ else none) 1000
      { tokens := { access_token := "h.p.s".data, refresh_token := "r".data,
                    id_token := "i".data, account_id := none },
        last_refresh := "t".data, auth_mode := none, OPENAI_API_KEY := none } = false :=
  ((isAccessTokenExpired_spec _ 1000 _).2 "h".data "p".data "s".data (by decide)).2.2.2
    4600 (by decide) (by decide)

/-- C6: `refreshTokens` performs exactly one exchange and no retry; it
propagates a network failure unchanged, fails with the HTTP status and the
response body text on any non-2xx response (in particular an HTTP 403
message contains `"403"` and the body text), fails as invalid when the 2xx
JSON body lacks a new access or id token, and returns the parsed body
otherwise. -/
theorem refreshTokens_spec (net : FetchOutcome) (tok : Str) :
    (∀ msg, net = .error msg →
      refreshTokens net tok = (.error (.netFailure msg), [tok])) ∧
    (∀ r, net = .ok r → respOk r = false →
      refreshTokens net tok = (.error (.refreshFailedHttp r.status r.bodyText), [tok]) ∧
      renderErr (.refreshFailedHttp r.status r.bodyText) =
        "Token refresh failed (HTTP ".data ++ (Nat.repr r.status).data ++ "): ".data
          ++ r.bodyText) ∧
    (∀ r, net = .ok r → r.status = 403 →
      refreshTokens net tok = (.error (.refreshFailedHttp 403 r.bodyText), [tok]) ∧
      ∃ pre post, renderErr (.refreshFailedHttp 403 r.bodyText) = pre ++ "403".data ++ post ∧
        post = "): ".data ++ r.bodyText) ∧
    (∀ r data, net = .ok r → respOk r = true → r.bodyJson = some data →
      (data.access_token = [] ∨ data.id_token = [] →
        refreshTokens net tok = (.error .refreshResponseMissingFields, [tok])) ∧
      (data.access_token ≠ [] → data.id_token ≠ [] →
        refreshTokens net tok = (.ok data, [tok]))) ∧
    (refreshTokens net tok).2 = [tok] := by
  refine ⟨?_, ?_, ?_, ?_, refreshTokens_calls net tok⟩
  · rintro msg rfl
    rfl
  · rintro r rfl hok
    constructor
    · unfold refreshTokens
      simp [hok]
    · rfl
  · rintro r rfl hst
    have hok : respOk r = false := by
      rw [respOk, hst]
      decide
    constructor
    · unfold refreshTokens
      simp [hok, hst]
    · refine ⟨"Token refresh failed (HTTP ".data, "): ".data ++ r.bodyText, ?_, rfl⟩
      have h403 : (Nat.repr 403).data = "403".data := by decide
      simp [renderErr, h403]
  · rintro r data rfl hok hjson
    constructor
    · intro hmiss
      unfold refreshTokens
      simp [hok, hjson, hmiss]
    · intro h1 h2
      unfold refreshTokens
      have : ¬(data.access_token = [] ∨ data.id_token = []) := by
        rintro (h | h)
        · exact h1 h
        · exact h2 h
      simp [hok, hjson, this]

/-- C6 witness: the theorem applied to a concrete 403 response. -/
theorem refreshTokens_spec_witness :
    refreshTokens (.ok ⟨403, "Forbidden".data, none⟩) "r".data =
      (.error (.refreshFailedHttp 403 "Forbidden".data), ["r".data]) ∧
    ∃ pre post,
      renderErr (.refreshFailedHttp 403 "Forbidden".data) = pre ++ "403".data ++ post ∧
        post = "): ".data ++ "Forbidden".data :=
  (refreshTokens_spec (.ok ⟨403, "Forbidden".data, none⟩) "r".data).2.2.1
    ⟨403, "Forbidden".data, none⟩ rfl rfl

/-- C2: `refreshAuthIfExpired` returns the input itself with
`refreshed = false` and makes no network call when the token is not
expired; on an expired token it makes exactly one exchange call and, when
the exchange succeeds, overlays the new access and id tokens, uses the
response's refresh token when present and otherwise keeps the prior one,
stamps a fresh `last_refresh`, and preserves every other field verbatim. -/
theorem refreshAuthIfExpired_spec (seg : SegDecoder) (now : Int) (nowIso : Str)
    (net : FetchOutcome) (auth : CodexAuthFile) :
    (isAccessTokenExpired seg now auth = false →
      refreshAuthIfExpired seg now nowIso net auth = (.ok (auth, false), [])) ∧
    (isAccessTokenExpired seg now auth = true →
      (refreshAuthIfExpired seg now nowIso net auth).2 = [auth.tokens.refresh_token] ∧
      ∀ data, refreshTokens net auth.tokens.refresh_token =
          (.ok data, [auth.tokens.refresh_token]) →
        refreshAuthIfExpired seg now nowIso net auth =
          (.ok ({ tokens :=
                    { access_token := data.access_token,
                      refresh_token := data.refresh_token.getD auth.tokens.refresh_token,
                      id_token := data.id_token,
                      account_id := auth.tokens.account_id },
                  last_refresh := nowIso,
                  auth_mode := auth.auth_mode,
                  OPENAI_API_KEY := auth.OPENAI_API_KEY }, true),
            [auth.tokens.refresh_token]) ∧
        (data.refresh_token = none →
          data.refresh_token.getD auth.tokens.refresh_token = auth.tokens.refresh_token) ∧
        (∀ rt, data.refresh_token = some rt →
          data.refresh_token.getD auth.tokens.refresh_token = rt)) := by
  constructor
  · intro hexp
    unfold refreshAuthIfExpired
    rw [hexp]
    rfl
  · intro hexp
    constructor
    · unfold refreshAuthIfExpired
      rw [hexp]
      have hcalls := refreshTokens_calls net auth.tokens.refresh_token
      rcases hrt : refreshTokens net auth.tokens.refresh_token with ⟨res, calls⟩
      rw [hrt] at hcalls
      cases res <;> simpa using hcalls
    · intro data hdata
      refine ⟨?_, ?_, ?_⟩
      · unfold refreshAuthIfExpired
        rw [hexp, hdata]
        rfl
      · rintro hnone
        rw [hnone]
        rfl
      · rintro rt hsome
        rw [hsome]
        rfl

/-- C2 witness: the theorem applied to an expired token, a successful
exchange whose response omits the refresh token, and concrete timestamps. -/
theorem refreshAuthIfExpired_spec_witness :
    refreshAuthIfExpired (fun s => if s = "p".data then some ⟨some 0⟩ else none) 1000
        "t9".data
        (.ok ⟨200, [],
          some ⟨"na".data, none, "ni".data, 3600⟩⟩)
        { tokens := { access_token := "h.p.s".data, refresh_token := "rt".data,
                      id_token := "it".data, account_id := none },
          last_refresh := "t0".data, auth_mode := some "oauth".data,
          OPENAI_API_KEY := none } =
      (.ok ({ tokens := { access_token := "na".data,
                          refresh_token := (Option.getD none "rt".data),
                          id_token := "ni".data, account_id := none },
              last_refresh := "t9".data, auth_mode := some "oauth".data,
              OPENAI_API_KEY := none }, true),
        ["rt".data]) :=
  (((refreshAuthIfExpired_spec (fun s => if s = "p".data then some ⟨some 0⟩ else none) 1000
      "t9".data
      (.ok ⟨200, [], some ⟨"na".data, none, "ni".data, 3600⟩⟩)
      { tokens := { access_token := "h.p.s".data, refresh_token := "rt".data,
                    id_token := "it".data, account_id := none },
        last_refresh := "t0".data, auth_mode := some "oauth".data,
        OPENAI_API_KEY := none }).2 (by decide)).2
    ⟨"na".data, none, "ni".data, 3600⟩ (by decide)).1

/-- C3 (amended): `loadAccount` returns the stored document when the
profile file exists and its text parses as JSON (whatever its shape — the
TypeScript cast checks nothing), a not-found `none` when no file exists,
and fails with the malformed-profile error, whose message includes the
offending file path, exactly when the file exists but its text is not
valid JSON. -/
theorem loadAccount_spec_amended (home name : Str) (fs : FS)
    (hv : validateAccountName name = .ok ()) :
    (getContent fs (accountsDir home) (accountFileName name) = none →
      loadAccount home name fs = .ok none) ∧
    (∀ d, getContent fs (accountsDir home) (accountFileName name) = some (.jsonText d) →
      loadAccount home name fs = .ok (some d)) ∧
    (∀ s, getContent fs (accountsDir home) (accountFileName name) = some (.badText s) →
      loadAccount home name fs =
        .error (.invalidAccountFile (joinPath (accountsDir home) (accountFileName name)) s) ∧
      ∃ pre post,
        renderErr (.invalidAccountFile (joinPath (accountsDir home) (accountFileName name)) s)
          = pre ++ joinPath (accountsDir home) (accountFileName name) ++ post) := by
  refine ⟨?_, ?_, ?_⟩
  · intro hc
    unfold loadAccount
    rw [hv, hc]
  · intro d hc
    unfold loadAccount
    rw [hv, hc]
  · intro s hc
    constructor
    · unfold loadAccount
      rw [hv, hc]
    · refine ⟨"Invalid account file \"".data, "\": ".data ++ s, ?_⟩
      simp [renderErr, List.append_assoc]

/-- C3 witness: the theorem applied to a store holding the well-formed
profile `"a"` and no file named `"b"`. -/
theorem loadAccount_spec_amended_witness :
    loadAccount "home".data "b".data
      ⟨[accountsDir "home".data],
        [⟨accountsDir "home".data, "a.json".data,
          .jsonText (.metaDoc ⟨"a".data, "t".data,
            ⟨⟨"x".data, "y".data, "z".data, none⟩, "t".data, none, none⟩⟩), 384⟩]⟩
      = .ok none :=
  (loadAccount_spec_amended "home".data "b".data
    ⟨[accountsDir "home".data],
      [⟨accountsDir "home".data, "a.json".data,
        .jsonText (.metaDoc ⟨"a".data, "t".data,
          ⟨⟨"x".data, "y".data, "z".data, none⟩, "t".data, none, none⟩⟩), 384⟩]⟩
    (by decide)).1 (by decide)

/-- C3 counterexample: the profile file `p.json` holds text that is valid
JSON but not a ProfileRecord, yet `loadAccount` succeeds and returns the
cast document instead of failing with a malformed-profile error as the
claim requires. -/
theorem loadAccount_shape_counterexample :
    getContent
        ⟨[accountsDir "home".data],
          [⟨accountsDir "home".data, "p.json".data, .jsonText (.otherDoc 0), 384⟩]⟩
        (accountsDir "home".data) (accountFileName "p".data)
      = some (.jsonText (.otherDoc 0)) ∧
    (JsonDoc.otherDoc 0).isMeta = false ∧
    loadAccount "home".data "p".data
        ⟨[accountsDir "home".data],
          [⟨accountsDir "home".data, "p.json".data, .jsonText (.otherDoc 0), 384⟩]⟩
      = .ok (some (.otherDoc 0)) := by
  decide

/-- C7: `saveAccount` fails with the already-exists error whenever a
profile file for the name is present, while `upsertAccount` on the same
store succeeds, replaces the record with the given credentials and the
fresh `savedAt`, and leaves the file with owner-only permission `0o600`
regardless of its previous mode. -/
theorem save_upsert_spec (home now name : Str) (auth : CodexAuthFile) (fs : FS)
    (hv : validateAccountName name = .ok ()) :
    ((getFile fs (accountsDir home) (accountFileName name)).isSome = true →
      saveAccount home now name auth fs = .error (.alreadyExists name)) ∧
    (∃ fs2, upsertAccount home now name auth fs = .ok fs2 ∧
      getContent fs2 (accountsDir home) (accountFileName name) =
        some (.jsonText (.metaDoc ⟨name, now, auth⟩)) ∧
      getMode fs2 (accountsDir home) (accountFileName name) = some 384) := by
  constructor
  · intro hsome
    obtain ⟨e, he⟩ := Option.isSome_iff_exists.mp hsome
    unfold saveAccount
    rw [hv]
    dsimp only
    rw [getFile_mkdirFS, he]
  · refine ⟨writeAccountFile (mkdirFS fs (accountsDir home)) (accountsDir home)
      (accountFileName name) ⟨name, now, auth⟩, ?_, ?_, ?_⟩
    · unfold upsertAccount
      rw [hv]
    · unfold writeAccountFile
      rw [getContent_chmodFS]
      exact getContent_writeFileFS_self _ _ _ _ _
    · unfold writeAccountFile
      obtain ⟨e, he, _⟩ := getFile_writeFileFS_self (mkdirFS fs (accountsDir home))
        (accountsDir home) (accountFileName name) (.jsonText (.metaDoc ⟨name, now, auth⟩)) 384
      exact getMode_chmodFS_self _ _ _ _ he

/-- C7 witness: the theorem applied to a store in which profile `dup`
already exists with a loose mode `0o644`. -/
theorem save_upsert_spec_witness :
    saveAccount "home".data "t1".data "dup".data
        ⟨⟨"a".data, "r".data, "i".data, none⟩, "t".data, none, none⟩
        ⟨[accountsDir "home".data],
          [⟨accountsDir "home".data, "dup.json".data, .jsonText (.otherDoc 7), 420⟩]⟩
      = .error (.alreadyExists "dup".data) ∧
    ∃ fs2, upsertAccount "home".data "t1".data "dup".data
        ⟨⟨"a".data, "r".data, "i".data, none⟩, "t".data, none, none⟩
        ⟨[accountsDir "home".data],
          [⟨accountsDir "home".data, "dup.json".data, .jsonText (.otherDoc 7), 420⟩]⟩
      = .ok fs2 ∧
      getContent fs2 (accountsDir "home".data) (accountFileName "dup".data) =
        some (.jsonText (.metaDoc ⟨"dup".data, "t1".data,
          ⟨⟨"a".data, "r".data, "i".data, none⟩, "t".data, none, none⟩⟩)) ∧
      getMode fs2 (accountsDir "home".data) (accountFileName "dup".data) = some 384 := by
  have h := save_upsert_spec "home".data "t1".data "dup".data
    ⟨⟨"a".data, "r".data, "i".data, none⟩, "t".data, none, none⟩
    ⟨[accountsDir "home".data],
      [⟨accountsDir "home".data, "dup.json".data, .jsonText (.otherDoc 7), 420⟩]⟩
    (by decide)
  exact ⟨h.1 (by decide), h.2⟩

/-- C8: writing any valid credential set (all three tokens non-empty) and
then reading the credential file yields exactly the written value. -/
theorem write_read_roundtrip (home hex : Str) (auth : CodexAuthFile) (fs : FS)
    (hdir : codexDir home ∈ fs.dirs)
    (h1 : auth.tokens.access_token ≠ []) (h2 : auth.tokens.refresh_token ≠ [])
    (h3 : auth.tokens.id_token ≠ []) :
    ∃ fs2, writeCodexAuth home hex auth fs = .ok fs2 ∧
      readCodexAuth home fs2 = .ok (some auth) := by
  obtain ⟨e, he, hc⟩ := getFile_writeFileFS_self (backupCodexAuth home fs) (codexDir home)
    (tmpFileName hex) (.jsonText (.authDoc auth)) 384
  refine ⟨renameFS
      (writeFileFS (backupCodexAuth home fs) (codexDir home) (tmpFileName hex)
        (.jsonText (.authDoc auth)) 384)
      (codexDir home) (tmpFileName hex) (codexDir home) authFileName, ?_, ?_⟩
  · unfold writeCodexAuth
    rw [if_pos hdir]
  · have hdest := getContent_renameFS_dest
      (writeFileFS (backupCodexAuth home fs) (codexDir home) (tmpFileName hex)
        (.jsonText (.authDoc auth)) 384)
      (codexDir home) authFileName he
    rw [hc] at hdest
    unfold readCodexAuth
    rw [hdest]
    dsimp only
    rw [if_neg ?hcond]
    case hcond =>
      rintro (h | h | h)
      · exact h1 h
      · exact h2 h
      · exact h3 h

/-- C8 witness: the theorem applied to a concrete credential set and an
empty `.codex` directory. -/
theorem write_read_roundtrip_witness :
    ∃ fs2, writeCodexAuth "home".data "ab12".data
        ⟨⟨"at".data, "rt".data, "it".data, none⟩, "t0".data, some "oauth".data, none⟩
        ⟨[codexDir "home".data], []⟩ = .ok fs2 ∧
      readCodexAuth "home".data fs2 =
        .ok (some ⟨⟨"at".data, "rt".data, "it".data, none⟩, "t0".data,
          some "oauth".data, none⟩) :=
  write_read_roundtrip "home".data "ab12".data
    ⟨⟨"at".data, "rt".data, "it".data, none⟩, "t0".data, some "oauth".data, none⟩
    ⟨[codexDir "home".data], []⟩ (by decide) (by decide) (by decide) (by decide)

/-- C10: a record written by `saveAccount` or `upsertAccount` under name
`n` stores `n` in its `name` field, lands in the file `<n>.json` of the
accounts directory (so the stored name equals the filename stem), and
`loadAccount`/`listAccounts` report exactly that name. -/
theorem saved_name_matches_file (home now name : Str) (auth : CodexAuthFile) (fs : FS)
    (hv : validateAccountName name = .ok ()) :
    accountFileName name = name ++ jsonExt ∧
    (∀ fs2, saveAccount home now name auth fs = .ok fs2 →
      getContent fs2 (accountsDir home) (accountFileName name) =
        some (.jsonText (.metaDoc ⟨name, now, auth⟩)) ∧
      loadAccount home name fs2 = .ok (some (.metaDoc ⟨name, now, auth⟩))) ∧
    (∀ fs2, upsertAccount home now name auth fs = .ok fs2 →
      getContent fs2 (accountsDir home) (accountFileName name) =
        some (.jsonText (.metaDoc ⟨name, now, auth⟩)) ∧
      loadAccount home name fs2 = .ok (some (.metaDoc ⟨name, now, auth⟩))) ∧
    (∀ (cmp : Str → Str → Bool) fs2,
      saveAccount home now name auth ⟨fs.dirs, []⟩ = .ok fs2 →
      listAccounts cmp home none fs2 = .ok [⟨name, now, false⟩]) := by
  have hcontent : ∀ X : FS,
      getContent (writeAccountFile X (accountsDir home) (accountFileName name)
        ⟨name, now, auth⟩) (accountsDir home) (accountFileName name) =
        some (.jsonText (.metaDoc ⟨name, now, auth⟩)) := by
    intro X
    unfold writeAccountFile
    rw [getContent_chmodFS]
    exact getContent_writeFileFS_self _ _ _ _ _
  have hload : ∀ fsx : FS,
      getContent fsx (accountsDir home) (accountFileName name) =
        some (.jsonText (.metaDoc ⟨name, now, auth⟩)) →
      loadAccount home name fsx = .ok (some (.metaDoc ⟨name, now, auth⟩)) := by
    intro fsx hcx
    unfold loadAccount
    rw [hv, hcx]
  refine ⟨rfl, ?_, ?_, ?_⟩
  · intro fs2 hsave
    unfold saveAccount at hsave
    rw [hv] at hsave
    dsimp only at hsave
    cases hgf : getFile (mkdirFS fs (accountsDir home)) (accountsDir home)
        (accountFileName name) with
    | some e =>
      rw [hgf] at hsave
      cases hsave
    | none =>
      rw [hgf] at hsave
      injection hsave with h
      rw [← h]
      exact ⟨hcontent _, hload _ (hcontent _)⟩
  · intro fs2 hup
    unfold upsertAccount at hup
    rw [hv] at hup
    dsimp only at hup
    injection hup with h
    rw [← h]
    exact ⟨hcontent _, hload _ (hcontent _)⟩
  · intro cmp fs2 hsave
    unfold saveAccount at hsave
    rw [hv] at hsave
    dsimp only at hsave
    have hgf : getFile (mkdirFS ⟨fs.dirs, []⟩ (accountsDir home)) (accountsDir home)
        (accountFileName name) = none := by
      rw [getFile_mkdirFS]
      rfl
    rw [hgf] at hsave
    injection hsave with h
    have hfiles2 : fs2.files =
        [⟨accountsDir home, accountFileName name,
          .jsonText (.metaDoc ⟨name, now, auth⟩), 384⟩] := by
      rw [← h]
      unfold writeAccountFile writeFileFS
      rw [hgf]
      simp [chmodFS, files_mkdirFS, entryMatches_mk]
    have hwf : ∀ e ∈ fs2.files, e.dir = accountsDir home →
        jsonExt.isSuffixOf e.fname = true →
        ∃ m, e.content = .jsonText (.metaDoc m) := by
      rw [hfiles2]
      rintro e he - -
      rcases List.mem_singleton.mp he with rfl
      exact ⟨⟨name, now, auth⟩, rfl⟩
    rw [listAccounts_ok cmp home none fs2 hwf, hfiles2]
    simp [entrySummary, jsonExt_isSuffixOf_accountFileName, summarize,
      List.insertionSort, List.orderedInsert]

/-- C10 witness: the theorem applied to a concrete save of name `acc`,
listing with the default-locale comparator. -/
theorem saved_name_matches_file_witness :
    accountFileName "acc".data = "acc".data ++ jsonExt ∧
    ∀ fs2, saveAccount "home".data "t1".data "acc".data
        ⟨⟨"a".data, "r".data, "i".data, none⟩, "t".data, none, none⟩
        ⟨([] : List Str), []⟩ = .ok fs2 →
      listAccounts defaultLocaleLe "home".data none fs2 =
        .ok [⟨"acc".data, "t1".data, false⟩] := by
  have h := saved_name_matches_file "home".data "t1".data "acc".data
    ⟨⟨"a".data, "r".data, "i".data, none⟩, "t".data, none, none⟩
    ⟨([] : List Str), []⟩ (by decide)
  exact ⟨h.1, fun fs2 hs => h.2.2.2 defaultLocaleLe fs2 hs⟩

/-- C1: with the configuration directory present, `writeCodexAuth D` first
copies the old content C to the backup path (states after the backup step
all show the backup), stages the new content in the temporary file while
the canonical path still holds C (every state before the final rename
shows C at the canonical path), and only the final rename makes D visible,
after which the canonical path holds exactly D, the backup holds exactly C
and the temporary file is gone; with no pre-existing credential file the
write still succeeds and leaves the backup path untouched. -/
theorem writeCodexAuth_backup_atomic (home hex : Str) (auth : CodexAuthFile) (fs : FS)
    (hdir : codexDir home ∈ fs.dirs) :
    (∀ C, getContent fs (codexDir home) authFileName = some C →
      ∃ s1 s2 s3, writeCodexAuthTrace home hex auth fs = .ok [fs, s1, s2, s3] ∧
        writeCodexAuth home hex auth fs = .ok s3 ∧
        getContent s1 (codexDir home) authBackupName = some C ∧
        getContent s1 (codexDir home) authFileName = some C ∧
        getContent s2 (codexDir home) authBackupName = some C ∧
        getContent s2 (codexDir home) authFileName = some C ∧
        getContent s2 (codexDir home) (tmpFileName hex) =
          some (.jsonText (.authDoc auth)) ∧
        getContent s3 (codexDir home) authFileName = some (.jsonText (.authDoc auth)) ∧
        getContent s3 (codexDir home) authBackupName = some C ∧
        getContent s3 (codexDir home) (tmpFileName hex) = none) ∧
    (getContent fs (codexDir home) authFileName = none →
      ∃ s3, writeCodexAuth home hex auth fs = .ok s3 ∧
        getContent s3 (codexDir home) authFileName = some (.jsonText (.authDoc auth)) ∧
        getContent s3 (codexDir home) authBackupName =
          getContent fs (codexDir home) authBackupName) := by
  have hq_auth_bak : ¬(authFileName = authBackupName) := authFileName_ne_backup
  have hne1 : ¬(codexDir home = codexDir home ∧ authFileName = authBackupName) :=
    fun hx => hq_auth_bak hx.2
  have hne2 : ¬(codexDir home = codexDir home ∧ authFileName = tmpFileName hex) :=
    fun hx => tmpFileName_ne_authFileName hex hx.2.symm
  have hne3 : ¬(codexDir home = codexDir home ∧ authBackupName = tmpFileName hex) :=
    fun hx => tmpFileName_ne_backup hex hx.2.symm
  have hne4 : ¬(codexDir home = codexDir home ∧ tmpFileName hex = authFileName) :=
    fun hx => tmpFileName_ne_authFileName hex hx.2
  have hne5 : ¬(codexDir home = codexDir home ∧ authBackupName = authFileName) :=
    fun hx => hq_auth_bak hx.2.symm
  constructor
  · intro C hC
    obtain ⟨e, he, hce⟩ := Option.map_eq_some'.mp hC
    have hs1 : backupCodexAuth home fs =
        writeFileFS fs (codexDir home) authBackupName e.content e.mode := by
      unfold backupCodexAuth
      rw [he]
    obtain ⟨e2, he2, hc2⟩ := getFile_writeFileFS_self (backupCodexAuth home fs)
      (codexDir home) (tmpFileName hex) (.jsonText (.authDoc auth)) 384
    refine ⟨backupCodexAuth home fs,
      writeFileFS (backupCodexAuth home fs) (codexDir home) (tmpFileName hex)
        (.jsonText (.authDoc auth)) 384,
      renameFS
        (writeFileFS (backupCodexAuth home fs) (codexDir home) (tmpFileName hex)
          (.jsonText (.authDoc auth)) 384)
        (codexDir home) (tmpFileName hex) (codexDir home) authFileName,
      ?_, ?_, ?_, ?_, ?_, ?_, ?_, ?_, ?_, ?_⟩
    · unfold writeCodexAuthTrace
      rw [if_pos hdir]
    · unfold writeCodexAuth
      rw [if_pos hdir]
    · rw [hs1, getContent_writeFileFS_self, hce]
    · rw [hs1, getContent_writeFileFS_ne fs _ _ hne1, getContent, he]
      simpa using hce
    · rw [getContent_writeFileFS_ne _ _ _ hne3, hs1, getContent_writeFileFS_self, hce]
    · rw [getContent_writeFileFS_ne _ _ _ hne2, hs1,
        getContent_writeFileFS_ne fs _ _ hne1, getContent, he]
      simpa using hce
    · rw [getContent_writeFileFS_self]
    · rw [getContent_renameFS_dest _ _ _ he2, hc2]
    · rw [getContent_renameFS_other _ he2 hne3 hne5,
        getContent_writeFileFS_ne _ _ _ hne3, hs1, getContent_writeFileFS_self, hce]
    · simp [getContent, getFile_renameFS_src _ _ _ he2 hne4]
  · intro hC
    have hgfnone : getFile fs (codexDir home) authFileName = none :=
      Option.map_eq_none'.mp hC
    have hs1 : backupCodexAuth home fs = fs := by
      unfold backupCodexAuth
      rw [hgfnone]
    obtain ⟨e2, he2, hc2⟩ := getFile_writeFileFS_self (backupCodexAuth home fs)
      (codexDir home) (tmpFileName hex) (.jsonText (.authDoc auth)) 384
    refine ⟨renameFS
        (writeFileFS (backupCodexAuth home fs) (codexDir home) (tmpFileName hex)
          (.jsonText (.authDoc auth)) 384)
        (codexDir home) (tmpFileName hex) (codexDir home) authFileName, ?_, ?_, ?_⟩
    · unfold writeCodexAuth
      rw [if_pos hdir]
    · rw [getContent_renameFS_dest _ _ _ he2, hc2]
    · rw [getContent_renameFS_other _ he2 hne3 hne5,
        getContent_writeFileFS_ne _ _ _ hne3, hs1]

/-- C1 witness: the theorem applied to a store whose credential file holds
a concrete old content C, and (for the second conjunct) to an empty
`.codex` directory. -/
theorem writeCodexAuth_backup_atomic_witness :
    (∃ s1 s2 s3, writeCodexAuthTrace "home".data "ab".data
        ⟨⟨"a2".data, "r2".data, "i2".data, none⟩, "t2".data, none, none⟩
        ⟨[codexDir "home".data],
          [⟨codexDir "home".data, authFileName,
            .jsonText (.authDoc ⟨⟨"a1".data, "r1".data, "i1".data, none⟩,
              "t1".data, none, none⟩), 384⟩]⟩ =
        .ok [⟨[codexDir "home".data],
          [⟨codexDir "home".data, authFileName,
            .jsonText (.authDoc ⟨⟨"a1".data, "r1".data, "i1".data, none⟩,
              "t1".data, none, none⟩), 384⟩]⟩, s1, s2, s3] ∧
      writeCodexAuth "home".data "ab".data
        ⟨⟨"a2".data, "r2".data, "i2".data, none⟩, "t2".data, none, none⟩
        ⟨[codexDir "home".data],
          [⟨codexDir "home".data, authFileName,
            .jsonText (.authDoc ⟨⟨"a1".data, "r1".data, "i1".data, none⟩,
              "t1".data, none, none⟩), 384⟩]⟩ = .ok s3 ∧
      getContent s1 (codexDir "home".data) authBackupName =
        some (.jsonText (.authDoc ⟨⟨"a1".data, "r1".data, "i1".data, none⟩,
          "t1".data, none, none⟩)) ∧
      getContent s1 (codexDir "home".data) authFileName =
        some (.jsonText (.authDoc ⟨⟨"a1".data, "r1".data, "i1".data, none⟩,
          "t1".data, none, none⟩)) ∧
      getContent s2 (codexDir "home".data) authBackupName =
        some (.jsonText (.authDoc ⟨⟨"a1".data, "r1".data, "i1".data, none⟩,
          "t1".data, none, none⟩)) ∧
      getContent s2 (codexDir "home".data) authFileName =
        some (.jsonText (.authDoc ⟨⟨"a1".data, "r1".data, "i1".data, none⟩,
          "t1".data, none, none⟩)) ∧
      getContent s2 (codexDir "home".data) (tmpFileName "ab".data) =
        some (.jsonText (.authDoc ⟨⟨"a2".data, "r2".data, "i2".data, none⟩,
          "t2".data, none, none⟩)) ∧
      getContent s3 (codexDir "home".data) authFileName =
        some (.jsonText (.authDoc ⟨⟨"a2".data, "r2".data, "i2".data, none⟩,
          "t2".data, none, none⟩)) ∧
      getContent s3 (codexDir "home".data) authBackupName =
        some (.jsonText (.authDoc ⟨⟨"a1".data, "r1".data, "i1".data, none⟩,
          "t1".data, none, none⟩)) ∧
      getContent s3 (codexDir "home".data) (tmpFileName "ab".data) = none) ∧
    (∃ s3, writeCodexAuth "home".data "ab".data
        ⟨⟨"a2".data, "r2".data, "i2".data, none⟩, "t2".data, none, none⟩
        ⟨[codexDir "home".data], []⟩ = .ok s3 ∧
      getContent s3 (codexDir "home".data) authFileName =
        some (.jsonText (.authDoc ⟨⟨"a2".data, "r2".data, "i2".data, none⟩,
          "t2".data, none, none⟩)) ∧
      getContent s3 (codexDir "home".data) authBackupName =
        getContent (⟨[codexDir "home".data], []⟩ : FS) (codexDir "home".data)
          authBackupName) :=
  ⟨(writeCodexAuth_backup_atomic "home".data "ab".data
      ⟨⟨"a2".data, "r2".data, "i2".data, none⟩, "t2".data, none, none⟩
      ⟨[codexDir "home".data],
        [⟨codexDir "home".data, authFileName,
          .jsonText (.authDoc ⟨⟨"a1".data, "r1".data, "i1".data, none⟩,
            "t1".data, none, none⟩), 384⟩]⟩ (by decide)).1
    (.jsonText (.authDoc ⟨⟨"a1".data, "r1".data, "i1".data, none⟩,
      "t1".data, none, none⟩)) (by decide),
   (writeCodexAuth_backup_atomic "home".data "ab".data
      ⟨⟨"a2".data, "r2".data, "i2".data, none⟩, "t2".data, none, none⟩
      ⟨[codexDir "home".data], []⟩ (by decide)).2 (by decide)⟩

theorem entrySummary_eq_some {cur : Option Str} {e : FileEntry} {s : AccountSummary} :
    entrySummary cur e = some s →
    jsonExt.isSuffixOf e.fname = true ∧
      ∃ m, e.content = .jsonText (.metaDoc m) ∧ s = summarize cur m := by
  unfold entrySummary
  by_cases hsuf : jsonExt.isSuffixOf e.fname
  · rw [if_pos hsuf]
    rcases hc : e.content with d | s2
    · rcases d with a | m | n
      · intro h
        cases h
      · intro h
        exact ⟨hsuf, m, rfl, (Option.some.inj h).symm⟩
      · intro h
        cases h
    · intro h
      cases h
  · rw [if_neg hsuf]
    intro h
    cases h

/-- C4 (amended): on a store whose profile files all parse as records,
`listAccounts` returns one summary per `.json` file of the accounts
directory (other files ignored), sorted ascending by name according to
the collation comparator the code sorts with (`localeCompare`, modelled
as any consistent comparator — the default locale's `defaultLocaleLe` is
one); an entry is active exactly when an access token was supplied and
the record's stored access token equals it; with no token supplied no
entry is active.  The final conjunct runs the spec's example under the
default-locale collation: profiles saved as charlie, alice, bob list as
alice, bob, charlie (on these same-case names the collation coincides
with lexicographic order; the counterexample shows they differ on
mixed-case names). -/
theorem listAccounts_spec :
    (∀ (cmp : Str → Str → Bool) (home : Str) (cur : Option Str) (fs : FS),
      (∀ a b c, cmp a b = true → cmp b c = true → cmp a c = true) →
      (∀ a b, cmp a b = true ∨ cmp b a = true) →
      (∀ e ∈ fs.files, e.dir = accountsDir home →
        jsonExt.isSuffixOf e.fname = true → ∃ m, e.content = .jsonText (.metaDoc m)) →
      ∃ out, listAccounts cmp home cur fs = .ok out ∧
        out.Perm ((fs.files.filter fun e => decide (e.dir = accountsDir home)).filterMap
          (entrySummary cur)) ∧
        List.Sorted (fun a b : AccountSummary => cmp a.name b.name = true) out ∧
        (cur = none → ∀ s ∈ out, s.isActive = false) ∧
        (∀ s ∈ out, ∃ e, e ∈ fs.files ∧ e.dir = accountsDir home ∧
          jsonExt.isSuffixOf e.fname = true ∧
          ∃ m, e.content = .jsonText (.metaDoc m) ∧ s = summarize cur m ∧
            (s.isActive = true ↔ ∃ t, cur = some t ∧ m.auth.tokens.access_token = t))) ∧
    (((saveAccount "h".data "t1".data "charlie".data
          ⟨⟨"ac".data, "rc".data, "ic".data, none⟩, "t".data, none, none⟩
          ⟨[], []⟩).bind fun f1 =>
        (saveAccount "h".data "t2".data "alice".data
          ⟨⟨"aa".data, "ra".data, "ia".data, none⟩, "t".data, none, none⟩ f1).bind fun f2 =>
        saveAccount "h".data "t3".data "bob".data
          ⟨⟨"ab".data, "rb".data, "ib".data, none⟩, "t".data, none, none⟩ f2).bind
        (listAccounts defaultLocaleLe "h".data none)).map (List.map (·.name)) =
      .ok ["alice".data, "bob".data, "charlie".data] := by
  constructor
  · intro cmp home cur fs htrans htotal hwf
    haveI httrans : IsTrans AccountSummary (fun a b => cmp a.name b.name = true) :=
      ⟨fun a b c hab hbc => htrans _ _ _ hab hbc⟩
    haveI httotal : IsTotal AccountSummary (fun a b => cmp a.name b.name = true) :=
      ⟨fun a b => htotal a.name b.name⟩
    refine ⟨_, listAccounts_ok cmp home cur fs hwf, ?_, ?_, ?_, ?_⟩
    · exact List.perm_insertionSort _ _
    · exact List.sorted_insertionSort _ _
    · rintro rfl s hs
      have hsL := (List.perm_insertionSort _ _).mem_iff.mp hs
      obtain ⟨e, _, hes⟩ := List.mem_filterMap.mp hsL
      obtain ⟨_, m, _, hsm⟩ := entrySummary_eq_some hes
      rw [hsm]
      exact summarize_isActive_none m
    · intro s hs
      have hsL := (List.perm_insertionSort _ _).mem_iff.mp hs
      obtain ⟨e, hef, hes⟩ := List.mem_filterMap.mp hsL
      obtain ⟨hemem, hdec⟩ := List.mem_filter.mp hef
      obtain ⟨hsuf, m, hcontent, hsm⟩ := entrySummary_eq_some hes
      refine ⟨e, hemem, of_decide_eq_true hdec, hsuf, m, hcontent, hsm, ?_⟩
      rw [hsm]
      exact summarize_isActive_iff cur m
  · decide

/-- C4 counterexample: the default-locale collation orders `"a"` before
`"B"` (base-letter primary strength), so listing a store that holds the
two valid profiles `B` and `a` returns the names `["a", "B"]`; code-point
lexicographic ascending order would instead require `"B"` (U+0042) before
`"a"` (U+0061) — `lexLe "a" "B" = false` — so the program's output is not
sorted lexicographically by name ascending, refuting the claim as
stated. -/
theorem listAccounts_locale_counterexample :
    validateAccountName "a".data = .ok () ∧
    validateAccountName "B".data = .ok () ∧
    defaultLocaleLe "a".data "B".data = true ∧
    defaultLocaleLe "B".data "a".data = false ∧
    (listAccounts defaultLocaleLe "h".data none
        ⟨[accountsDir "h".data],
          [⟨accountsDir "h".data, "B.json".data,
            .jsonText (.metaDoc ⟨"B".data, "t1".data,
              ⟨⟨"aB".data, "rB".data, "iB".data, none⟩, "t".data, none, none⟩⟩), 384⟩,
           ⟨accountsDir "h".data, "a.json".data,
            .jsonText (.metaDoc ⟨"a".data, "t2".data,
              ⟨⟨"aa".data, "ra".data, "ia".data, none⟩, "t".data, none, none⟩⟩), 384⟩]⟩).map
      (List.map (·.name)) = .ok ["a".data, "B".data] ∧
    lexLe "a".data "B".data = false := by
  decide

/-- C4 witness: the universally quantified part applied to the
default-locale comparator and a concrete two-profile store with an active
token matching exactly one profile. -/
theorem listAccounts_spec_witness :
    ∃ out, listAccounts defaultLocaleLe "h".data (some "aa".data)
        ⟨[accountsDir "h".data],
          [⟨accountsDir "h".data, "b.json".data,
            .jsonText (.metaDoc ⟨"b".data, "t2".data,
              ⟨⟨"ab".data, "rb".data, "ib".data, none⟩, "t".data, none, none⟩⟩), 384⟩,
           ⟨accountsDir "h".data, "notes.txt".data, .badText "private".data, 384⟩,
           ⟨accountsDir "h".data, "a.json".data,
            .jsonText (.metaDoc ⟨"a".data, "t1".data,
              ⟨⟨"aa".data, "ra".data, "ia".data, none⟩, "t".data, none, none⟩⟩), 384⟩]⟩
        = .ok out ∧
      out.Perm (((⟨[accountsDir "h".data],
          [⟨accountsDir "h".data, "b.json".data,
            .jsonText (.metaDoc ⟨"b".data, "t2".data,
              ⟨⟨"ab".data, "rb".data, "ib".data, none⟩, "t".data, none, none⟩⟩), 384⟩,
           ⟨accountsDir "h".data, "notes.txt".data, .badText "private".data, 384⟩,
           ⟨accountsDir "h".data, "a.json".data,
            .jsonText (.metaDoc ⟨"a".data, "t1".data,
              ⟨⟨"aa".data, "ra".data, "ia".data, none⟩, "t".data, none, none⟩⟩), 384⟩]⟩ :
        FS).files.filter fun e => decide (e.dir = accountsDir "h".data)).filterMap
          (entrySummary (some "aa".data))) ∧
      List.Sorted (fun a b : AccountSummary => defaultLocaleLe a.name b.name = true) out ∧
      (some "aa".data = none → ∀ s ∈ out, s.isActive = false) ∧
      (∀ s ∈ out, ∃ e, e ∈ (⟨[accountsDir "h".data],
          [⟨accountsDir "h".data, "b.json".data,
            .jsonText (.metaDoc ⟨"b".data, "t2".data,
              ⟨⟨"ab".data, "rb".data, "ib".data, none⟩, "t".data, none, none⟩⟩), 384⟩,
           ⟨accountsDir "h".data, "notes.txt".data, .badText "private".data, 384⟩,
           ⟨accountsDir "h".data, "a.json".data,
            .jsonText (.metaDoc ⟨"a".data, "t1".data,
              ⟨⟨"aa".data, "ra".data, "ia".data, none⟩, "t".data, none, none⟩⟩), 384⟩]⟩ :
        FS).files ∧ e.dir = accountsDir "h".data ∧
        jsonExt.isSuffixOf e.fname = true ∧
        ∃ m, e.content = .jsonText (.metaDoc m) ∧ s = summarize (some "aa".data) m ∧
          (s.isActive = true ↔
            ∃ t, some "aa".data = some t ∧ m.auth.tokens.access_token = t)) :=
  listAccounts_spec.1 defaultLocaleLe "h".data (some "aa".data)
    ⟨[accountsDir "h".data],
      [⟨accountsDir "h".data, "b.json".data,
        .jsonText (.metaDoc ⟨"b".data, "t2".data,
          ⟨⟨"ab".data, "rb".data, "ib".data, none⟩, "t".data, none, none⟩⟩), 384⟩,
       ⟨accountsDir "h".data, "notes.txt".data, .badText "private".data, 384⟩,
       ⟨accountsDir "h".data, "a.json".data,
        .jsonText (.metaDoc ⟨"a".data, "t1".data,
          ⟨⟨"aa".data, "ra".data, "ia".data, none⟩, "t".data, none, none⟩⟩), 384⟩]⟩
    defaultLocaleLe_trans defaultLocaleLe_total
    (by
      intro e he hdir hsuf
      simp only [List.mem_cons, List.not_mem_nil, or_false] at he
      rcases he with rfl | rfl | rfl
      · exact ⟨_, rfl⟩
      · exact absurd hsuf (by decide)
      · exact ⟨_, rfl⟩)

end CodexRouter
